import Mathlib

/-!
Shallow embedding of the event join-request workflow of the Auralink backend
(file backend/src/routes/events.js): the route handlers
POST /events/:id/join, POST /events/:id/approve-request/:requestId,
POST /events/:id/reject-request/:requestId and POST /events/:id/leave,
restricted to the state they read and mutate on a single Event document.

Each handler is modelled as a pure function from the Event document (plus the
request parameters) to a pair of the HTTP outcome and the Event document as it
stands in the database after the request: the single `event.save()` call is the
only mutation point, so a handler that fails before it leaves the stored
document unchanged, and the returned document equals the input in that case.
Mongo ObjectIds are modelled as `String` (users) and `Nat` (subdocument ids),
JavaScript numbers as `Int`, and fields that may be `undefined` as `Option`.
A JavaScript TypeError thrown by reading a field of `undefined` (reaching the
generic 500 handler) is the `InternalError` outcome.
-/

namespace Auralink

/-- Status of a join request: the string field `status` of a `joinRequests`
subdocument, one of "pending", "approved", "rejected". -/
inductive Status where
  | pending
  | approved
  | rejected
  deriving DecidableEq, Repr

/-- A subdocument of `event.joinRequests`: `rid` models the mongoose `_id`
used by `event.joinRequests.id(requestId)`. -/
structure JoinRequest where
  rid : Nat
  user : String
  transactionCode : String
  status : Status
  requestedAt : Nat
  deriving DecidableEq, Repr

/-- The `capacity` subdocument: `current` is a number, `max` may be absent. -/
structure Capacity where
  current : Int
  max : Option Int
  deriving DecidableEq, Repr

/-- The `pricing` subdocument; `ptype` models the field named `type`. -/
structure Pricing where
  ptype : String
  amount : Int
  currency : String
  deriving DecidableEq, Repr

/-- The fields of an Event document read or written by the join workflow. -/
structure Event where
  organizer : String
  participants : List String
  waitlist : List String
  joinRequests : List JoinRequest
  requiresApproval : Bool
  capacity : Option Capacity
  pricing : Option Pricing
  deriving DecidableEq, Repr

/-- Outcome of POST /events/:id/join. -/
inductive JoinResult where
  | Joined
  | PendingApproval
  | AlreadyJoined
  | CapacityExceeded
  | PaymentRequired (amount : Int) (currency : String)
  | DuplicateRequest
  deriving DecidableEq, Repr

/-- Outcome of POST /events/:id/approve-request/:requestId. -/
inductive ApproveResult where
  | Ok
  | Forbidden
  | RequestNotFound
  | AlreadyProcessed
  | CapacityExceeded
  | InternalError
  deriving DecidableEq, Repr

/-- Outcome of POST /events/:id/reject-request/:requestId. -/
inductive RejectResult where
  | Ok
  | Forbidden
  | RequestNotFound
  | AlreadyProcessed
  deriving DecidableEq, Repr

/-- Outcome of POST /events/:id/leave. -/
inductive LeaveResult where
  | Ok
  | NotAParticipant
  | InternalError
  deriving DecidableEq, Repr

/-- The effective capacity limit of the join handler:
`const maxCapacity = event.capacity?.max || 1000`. The JavaScript `||`
falls back to 1000 when `capacity` is absent, when `max` is absent, and
when `max` is the falsy number 0. -/
def maxCapacity (e : Event) : Int :=
  match e.capacity with
  | none => 1000
  | some c =>
    match c.max with
    | none => 1000
    | some m => if m = 0 then 1000 else m

/-- JavaScript falsiness of the optional `transactionCode` string:
`!transactionCode` holds when it is absent or the empty string. -/
def tcMissing (tc : Option String) : Bool :=
  match tc with
  | none => true
  | some s => s == ""

/-- The stored transaction code `transactionCode || "FREE"`. -/
def tcOrFree (tc : Option String) : String :=
  match tc with
  | none => "FREE"
  | some s => if s = "" then "FREE" else s

/-- The branch of the join handler after the already-joined, capacity and
payment checks: the pending-request dedup check, then either the creation of
a pending JoinRequest (`requiresApproval` true) or immediate admission with
`capacity.current = participants.length` (`requiresApproval` false). -/
def attemptJoinBranch (e : Event) (userId : String) (tc : Option String)
    (reqId now : Nat) : JoinResult × Event :=
  if e.requiresApproval then
    if ∃ r ∈ e.joinRequests, r.user = userId ∧ r.status = Status.pending then
      (JoinResult.DuplicateRequest, e)
    else
      (JoinResult.PendingApproval,
        { e with joinRequests :=
            e.joinRequests ++ [⟨reqId, userId, tcOrFree tc, Status.pending, now⟩] })
  else
    (JoinResult.Joined,
      { e with participants := e.participants ++ [userId],
               capacity := e.capacity.map
                 (fun c => { c with current := ((e.participants ++ [userId]).length : Int) }) })

/-- POST /events/:id/join on a found event: check membership in
`participants`, then the capacity check against `maxCapacity`, then the
paid-event transaction-code check, then delegate to `attemptJoinBranch`.
`reqId` and `now` model the generated subdocument id and `new Date()`. -/
def attemptJoin (e : Event) (userId : String) (tc : Option String)
    (reqId now : Nat) : JoinResult × Event :=
  if userId ∈ e.participants then
    (JoinResult.AlreadyJoined, e)
  else if maxCapacity e ≤ (e.participants.length : Int) then
    (JoinResult.CapacityExceeded, e)
  else
    match e.pricing with
    | some p =>
      if p.ptype = "paid" ∧ tcMissing tc then
        (JoinResult.PaymentRequired p.amount p.currency, e)
      else attemptJoinBranch e userId tc reqId now
    | none => attemptJoinBranch e userId tc reqId now

/-- Mutation of the subdocument returned by `event.joinRequests.id(rid)`:
set the status of the first request whose `_id` matches. -/
def setStatusFirst : List JoinRequest → Nat → Status → List JoinRequest
  | [], _, _ => []
  | r :: rs, i, s =>
    if r.rid = i then { r with status := s } :: rs
    else r :: setStatusFirst rs i s

/-- Whether `event.capacity.current >= event.capacity.max` holds in
JavaScript: comparison with an absent `max` is false. -/
def capFull (c : Capacity) : Prop :=
  match c.max with
  | none => False
  | some m => m ≤ c.current

instance (c : Capacity) : Decidable (capFull c) := by
  unfold capFull
  cases c.max
  · exact inferInstanceAs (Decidable False)
  · exact inferInstanceAs (Decidable (_ ≤ _))

/-- POST /events/:id/approve-request/:requestId: organizer check, request
lookup, already-processed check, capacity check (reading
`event.capacity.current` throws when `capacity` is absent), then the single
mutation: request approved, user appended to participants,
`capacity.current += 1`. -/
def approveRequest (e : Event) (requestId : Nat) (approverId : String) :
    ApproveResult × Event :=
  if approverId ≠ e.organizer then (ApproveResult.Forbidden, e)
  else
    match e.joinRequests.find? (fun r => r.rid == requestId) with
    | none => (ApproveResult.RequestNotFound, e)
    | some r =>
      if r.status ≠ Status.pending then (ApproveResult.AlreadyProcessed, e)
      else
        match e.capacity with
        | none => (ApproveResult.InternalError, e)
        | some c =>
          if capFull c then (ApproveResult.CapacityExceeded, e)
          else
            (ApproveResult.Ok,
              { e with
                  joinRequests := setStatusFirst e.joinRequests requestId Status.approved,
                  participants := e.participants ++ [r.user],
                  capacity := some { c with current := c.current + 1 } })

/-- POST /events/:id/reject-request/:requestId: same organizer, lookup and
already-processed checks as approval; the mutation only sets the request
status to rejected. -/
def rejectRequest (e : Event) (requestId : Nat) (approverId : String) :
    RejectResult × Event :=
  if approverId ≠ e.organizer then (RejectResult.Forbidden, e)
  else
    match e.joinRequests.find? (fun r => r.rid == requestId) with
    | none => (RejectResult.RequestNotFound, e)
    | some r =>
      if r.status ≠ Status.pending then (RejectResult.AlreadyProcessed, e)
      else
        (RejectResult.Ok,
          { e with joinRequests := setStatusFirst e.joinRequests requestId Status.rejected })

/-- Removal by `indexOf` plus `splice(index, 1)`: drop the first occurrence. -/
def removeFirst : List String → String → List String
  | [], _ => []
  | x :: xs, u => if x = u then xs else x :: removeFirst xs u

/-- POST /events/:id/leave: membership check via `indexOf`, removal from
participants, `capacity.current -= 1` (throws when `capacity` is absent),
then promotion of the waitlist head when the waitlist is non-empty:
`shift()` it off the waitlist, push it onto participants,
`capacity.current += 1`. -/
def leave (e : Event) (userId : String) : LeaveResult × Event :=
  if userId ∈ e.participants then
    match e.capacity with
    | none => (LeaveResult.InternalError, e)
    | some c =>
      match e.waitlist with
      | [] =>
        (LeaveResult.Ok,
          { e with participants := removeFirst e.participants userId,
                   capacity := some { c with current := c.current - 1 } })
      | w :: ws =>
        (LeaveResult.Ok,
          { e with participants := removeFirst e.participants userId ++ [w],
                   waitlist := ws,
                   capacity := some { c with current := c.current - 1 + 1 } })
  else (LeaveResult.NotAParticipant, e)

/-! Helper lemmas characterising the branches of the handlers. -/

theorem attemptJoin_mem (e : Event) (u : String) (tc : Option String) (reqId now : Nat)
    (h : u ∈ e.participants) :
    attemptJoin e u tc reqId now = (JoinResult.AlreadyJoined, e) := by
  simp [attemptJoin, h]

theorem attemptJoin_cap (e : Event) (u : String) (tc : Option String) (reqId now : Nat)
    (h : u ∉ e.participants) (hcap : maxCapacity e ≤ (e.participants.length : Int)) :
    attemptJoin e u tc reqId now = (JoinResult.CapacityExceeded, e) := by
  simp [attemptJoin, h, hcap]

theorem maxCapacity_eq (e : Event) (c : Capacity) (m : Int)
    (hc : e.capacity = some c) (hm : c.max = some m) (h : m ≠ 0) :
    maxCapacity e = m := by
  simp [maxCapacity, hc, hm, h]

theorem attemptJoin_notFull (e : Event) (u : String) (tc : Option String) (reqId now : Nat)
    (h : u ∉ e.participants) (hcap : (e.participants.length : Int) < maxCapacity e)
    (hpay : ∀ p, e.pricing = some p → p.ptype = "paid" → tcMissing tc = false) :
    attemptJoin e u tc reqId now = attemptJoinBranch e u tc reqId now := by
  unfold attemptJoin
  rw [if_neg h, if_neg (not_le.mpr hcap)]
  cases hp : e.pricing with
  | none => rfl
  | some p =>
    have hcond : ¬ (p.ptype = "paid" ∧ tcMissing tc = true) := by
      rintro ⟨h1, h2⟩
      rw [hpay p hp h1] at h2
      exact Bool.false_ne_true h2
    simp [hcond]

theorem attemptJoinBranch_free (e : Event) (u : String) (tc : Option String) (reqId now : Nat)
    (hra : e.requiresApproval = false) :
    attemptJoinBranch e u tc reqId now =
      (JoinResult.Joined,
        { e with participants := e.participants ++ [u],
                 capacity := e.capacity.map
                   (fun c => { c with current := ((e.participants ++ [u]).length : Int) }) }) := by
  simp [attemptJoinBranch, hra]

theorem attemptJoinBranch_dup (e : Event) (u : String) (tc : Option String) (reqId now : Nat)
    (hra : e.requiresApproval = true)
    (hdup : ∃ r ∈ e.joinRequests, r.user = u ∧ r.status = Status.pending) :
    attemptJoinBranch e u tc reqId now = (JoinResult.DuplicateRequest, e) := by
  simp [attemptJoinBranch, hra, hdup]

theorem attemptJoinBranch_pending (e : Event) (u : String) (tc : Option String) (reqId now : Nat)
    (hra : e.requiresApproval = true)
    (hdup : ¬ ∃ r ∈ e.joinRequests, r.user = u ∧ r.status = Status.pending) :
    attemptJoinBranch e u tc reqId now =
      (JoinResult.PendingApproval,
        { e with joinRequests :=
            e.joinRequests ++ [⟨reqId, u, tcOrFree tc, Status.pending, now⟩] }) := by
  simp only [attemptJoinBranch, hra, if_true]
  rw [if_neg hdup]

theorem attemptJoin_res_ne_cap (e : Event) (u : String) (tc : Option String) (reqId now : Nat)
    (hmem : u ∉ e.participants) (hcap : (e.participants.length : Int) < maxCapacity e) :
    (attemptJoin e u tc reqId now).1 ≠ JoinResult.CapacityExceeded := by
  unfold attemptJoin attemptJoinBranch
  rw [if_neg hmem, if_neg (not_le.mpr hcap)]
  split <;> split_ifs <;> simp

/-! Concrete event documents used by witnesses and counterexamples. -/

def fullApprovalEvent : Event :=
  ⟨"org", ["a", "b"], [], [], true, some ⟨2, some 2⟩, none⟩

def zeroMaxApprovalEvent : Event := ⟨"org", [], [], [], true, some ⟨0, some 0⟩, none⟩

def zeroMaxFreeEvent : Event := ⟨"org", [], [], [], false, some ⟨0, some 0⟩, none⟩

def spareFreeEvent : Event := ⟨"org", ["a"], [], [], false, some ⟨1, some 3⟩, none⟩

def staleCounterEvent : Event := ⟨"org", [], [], [], false, some ⟨5, some 10⟩, none⟩

def processedEvent : Event :=
  ⟨"org", [], [], [⟨1, "u", "FREE", Status.approved, 0⟩], true, some ⟨0, some 5⟩, none⟩

def pendingEvent : Event :=
  ⟨"org", [], [], [⟨1, "u", "FREE", Status.pending, 0⟩], true, some ⟨0, some 5⟩, none⟩

def fullPendingEvent : Event :=
  ⟨"org", ["v"], [], [⟨1, "u", "FREE", Status.pending, 0⟩], true, some ⟨1, some 1⟩, none⟩

def paidEvent : Event :=
  ⟨"org", ["x"], [], [], true, some ⟨1, some 5⟩, some ⟨"paid", 50, "EUR"⟩⟩

def freeEvent : Event := ⟨"org", [], [], [], false, some ⟨0, some 3⟩, none⟩

def defaultCapEvent : Event := ⟨"org", ["a", "b"], [], [], false, some ⟨3, some 0⟩, none⟩

/-- C2 (amended: `capacity.max` at least 1): for every event whose
participants count equals `capacity.max` with `capacity.max ≥ 1` and every
user not already in participants, attemptJoin fails with CapacityExceeded
regardless of `requiresApproval`, and the event is returned unchanged, so in
particular no pending JoinRequest is created. -/
theorem join_full_capacityExceeded (e : Event) (u : String) (tc : Option String)
    (reqId now : Nat) (c : Capacity) (m : Int)
    (hc : e.capacity = some c) (hm : c.max = some m) (hm1 : 1 ≤ m)
    (hfull : (e.participants.length : Int) = m) (hmem : u ∉ e.participants) :
    attemptJoin e u tc reqId now = (JoinResult.CapacityExceeded, e) := by
  apply attemptJoin_cap e u tc reqId now hmem
  rw [maxCapacity_eq e c m hc hm (by omega), hfull]

/-- Witness for C2 at the spec scenario capacity current 2, max 2. -/
theorem join_full_capacityExceeded_witness :
    attemptJoin fullApprovalEvent "u" none 1 1 =
      (JoinResult.CapacityExceeded, fullApprovalEvent) :=
  join_full_capacityExceeded fullApprovalEvent "u" none 1 1 ⟨2, some 2⟩ 2 rfl rfl
    (by decide) rfl (by decide)

/-- C2 counterexample: an event with `participants.length = capacity.max = 0`
is not rejected as full: the JavaScript `|| 1000` default treats `max = 0` as
the limit 1000, the join proceeds, and with `requiresApproval = true` a
pending JoinRequest is created on the full event. -/
theorem join_full_capacityExceeded_cex :
    zeroMaxApprovalEvent.capacity = some ⟨0, some 0⟩ ∧
    zeroMaxApprovalEvent.participants.length = 0 ∧
    "u" ∉ zeroMaxApprovalEvent.participants ∧
    attemptJoin zeroMaxApprovalEvent "u" none 7 3 =
      (JoinResult.PendingApproval,
        { zeroMaxApprovalEvent with
            joinRequests := [⟨7, "u", "FREE", Status.pending, 3⟩] }) := by
  decide

/-- C4 (amended: the state additionally satisfies
`capacity.current = participants.length`): for every event with
`requiresApproval = false`, participants count strictly below `capacity.max`,
and a user not already in participants, with any required transaction code
present, attemptJoin returns Joined, adds exactly that user to participants,
and increments `capacity.current` by exactly 1. -/
theorem join_free_spare_capacity (e : Event) (u : String) (tc : Option String)
    (reqId now : Nat) (cur m : Int)
    (hra : e.requiresApproval = false)
    (hc : e.capacity = some ⟨cur, some m⟩)
    (hlt : (e.participants.length : Int) < m)
    (hmem : u ∉ e.participants)
    (hpay : ∀ p, e.pricing = some p → p.ptype = "paid" → tcMissing tc = false)
    (hcur : cur = (e.participants.length : Int)) :
    attemptJoin e u tc reqId now =
      (JoinResult.Joined,
        { e with participants := e.participants ++ [u],
                 capacity := some ⟨cur + 1, some m⟩ }) := by
  have hm0 : m ≠ 0 := by omega
  have hcap : (e.participants.length : Int) < maxCapacity e := by
    rw [maxCapacity_eq e _ m hc rfl hm0]
    exact hlt
  have hlen2 : (((e.participants ++ [u]).length : Nat) : Int) = cur + 1 := by
    simp [List.length_append]
    omega
  rw [attemptJoin_notFull e u tc reqId now hmem hcap hpay,
    attemptJoinBranch_free e u tc reqId now hra, hc]
  rw [Option.map_some', hlen2]

/-- Witness for C4: a free event with one participant and max 3. -/
theorem join_free_spare_capacity_witness :
    attemptJoin spareFreeEvent "u" none 1 1 =
      (JoinResult.Joined,
        { spareFreeEvent with participants := ["a", "u"],
                              capacity := some ⟨2, some 3⟩ }) := by
  have h := join_free_spare_capacity spareFreeEvent "u" none 1 1 1 3 rfl rfl
    (by decide) (by decide) (by intro p hp; simp [spareFreeEvent] at hp) rfl
  rw [h]
  decide

/-- C4 counterexample: on a state with `capacity.current = 5` but no
participants, the join handler recomputes `capacity.current` as the new
participants count 1 instead of incrementing it by exactly 1 to 6. -/
theorem join_free_spare_capacity_cex :
    staleCounterEvent.requiresApproval = false ∧
    staleCounterEvent.capacity = some ⟨5, some 10⟩ ∧
    staleCounterEvent.participants.length < 10 ∧
    "u" ∉ staleCounterEvent.participants ∧
    (attemptJoin staleCounterEvent "u" none 1 1).2.capacity = some ⟨1, some 10⟩ ∧
    (1 : Int) ≠ 5 + 1 := by
  decide

/-- C5: approveRequest called by the organizer on a request whose status is
already approved or rejected fails with AlreadyProcessed and returns the
entire event record unchanged: no mutation of participants, capacity,
waitlist or joinRequests is committed. -/
theorem approve_processed_unchanged (e : Event) (requestId : Nat) (r : JoinRequest)
    (hfind : e.joinRequests.find? (fun q => q.rid == requestId) = some r)
    (hst : r.status = Status.approved ∨ r.status = Status.rejected) :
    approveRequest e requestId e.organizer = (ApproveResult.AlreadyProcessed, e) := by
  have hs : r.status ≠ Status.pending := by rcases hst with h | h <;> simp [h]
  simp [approveRequest, hfind, hs]

/-- Witness for C5 on a concrete already-approved request. -/
theorem approve_processed_unchanged_witness :
    approveRequest processedEvent 1 "org" =
      (ApproveResult.AlreadyProcessed, processedEvent) :=
  approve_processed_unchanged processedEvent 1 ⟨1, "u", "FREE", Status.approved, 0⟩
    rfl (Or.inl rfl)

/-- C6 (amended: provided the user is not already a participant, the event is
below its effective capacity limit, and the payment precondition holds — the
checks that precede the dedup check): on an event with
`requiresApproval = true`, a user with a pending JoinRequest gets
DuplicateRequest from a further attemptJoin, with the event unchanged. -/
theorem pending_duplicate_request (e : Event) (u : String) (tc : Option String)
    (reqId now : Nat) (hra : e.requiresApproval = true)
    (hpend : ∃ r ∈ e.joinRequests, r.user = u ∧ r.status = Status.pending)
    (hmem : u ∉ e.participants)
    (hcap : (e.participants.length : Int) < maxCapacity e)
    (hpay : ∀ p, e.pricing = some p → p.ptype = "paid" → tcMissing tc = false) :
    attemptJoin e u tc reqId now = (JoinResult.DuplicateRequest, e) := by
  rw [attemptJoin_notFull e u tc reqId now hmem hcap hpay]
  exact attemptJoinBranch_dup e u tc reqId now hra hpend

/-- Witness for C6 on a concrete event with a pending request. -/
theorem pending_duplicate_request_witness :
    attemptJoin pendingEvent "u" none 2 1 = (JoinResult.DuplicateRequest, pendingEvent) :=
  pending_duplicate_request pendingEvent "u" none 2 1 rfl (by decide) (by decide)
    (by decide) (by intro p hp; simp [pendingEvent] at hp)

/-- C6 counterexample: a user with a pending request on an event that has
since become full gets CapacityExceeded, not DuplicateRequest, because the
capacity check precedes the dedup check. -/
theorem pending_duplicate_request_cex :
    fullPendingEvent.requiresApproval = true ∧
    (∃ r ∈ fullPendingEvent.joinRequests, r.user = "u" ∧ r.status = Status.pending) ∧
    (attemptJoin fullPendingEvent "u" none 2 5).1 = JoinResult.CapacityExceeded := by
  decide

/-- C7: on an event with `pricing.type = paid`, an attemptJoin call without a
transaction code by a user not already a participant, with spare capacity,
fails with PaymentRequired carrying the amount and currency from
`event.pricing`, with the event unchanged. -/
theorem paid_join_without_code (e : Event) (u : String) (p : Pricing) (reqId now : Nat)
    (hp : e.pricing = some p) (hpaid : p.ptype = "paid")
    (hmem : u ∉ e.participants)
    (hcap : (e.participants.length : Int) < maxCapacity e) :
    attemptJoin e u none reqId now = (JoinResult.PaymentRequired p.amount p.currency, e) := by
  unfold attemptJoin
  rw [if_neg hmem, if_neg (not_le.mpr hcap)]
  simp [hp, hpaid, tcMissing]

/-- Witness for C7 at the spec scenario: capacity current 1 max 5,
requiresApproval true, paid pricing, no transaction code. -/
theorem paid_join_without_code_witness :
    attemptJoin paidEvent "u" none 1 1 = (JoinResult.PaymentRequired 50 "EUR", paidEvent) :=
  paid_join_without_code paidEvent "u" ⟨"paid", 50, "EUR"⟩ 1 1 rfl rfl
    (by decide) (by decide)

/-- C8: with `requiresApproval = false`, a user not yet a participant, spare
capacity and the payment precondition satisfied, attemptJoin yields Joined,
and a second attemptJoin in sequence by the same user yields AlreadyJoined
and leaves the event state unchanged. -/
theorem attemptJoin_idempotent (e : Event) (u : String) (tc : Option String)
    (r1 n1 r2 n2 : Nat) (hra : e.requiresApproval = false)
    (hmem : u ∉ e.participants)
    (hcap : (e.participants.length : Int) < maxCapacity e)
    (hpay : ∀ p, e.pricing = some p → p.ptype = "paid" → tcMissing tc = false) :
    (attemptJoin e u tc r1 n1).1 = JoinResult.Joined ∧
    attemptJoin (attemptJoin e u tc r1 n1).2 u tc r2 n2 =
      (JoinResult.AlreadyJoined, (attemptJoin e u tc r1 n1).2) := by
  have h1 := (attemptJoin_notFull e u tc r1 n1 hmem hcap hpay).trans
    (attemptJoinBranch_free e u tc r1 n1 hra)
  refine ⟨by rw [h1], ?_⟩
  apply attemptJoin_mem
  rw [h1]
  simp

/-- Witness for C8 on a concrete free event. -/
theorem attemptJoin_idempotent_witness :
    (attemptJoin freeEvent "u" none 1 1).1 = JoinResult.Joined ∧
    attemptJoin (attemptJoin freeEvent "u" none 1 1).2 "u" none 2 2 =
      (JoinResult.AlreadyJoined, (attemptJoin freeEvent "u" none 1 1).2) :=
  attemptJoin_idempotent freeEvent "u" none 1 1 2 2 rfl (by decide) (by decide)
    (by intro p hp; simp [freeEvent] at hp)

/-- C10: when the capacity field is absent, or `capacity.max` is absent or
zero, attemptJoin treats the capacity limit as 1000: for a user not already a
participant, the join is rejected as full exactly when the participants count
is at least 1000. -/
theorem default_capacity_1000 (e : Event) (u : String) (tc : Option String) (reqId now : Nat)
    (hcap : e.capacity = none ∨ ∃ c, e.capacity = some c ∧ (c.max = none ∨ c.max = some 0))
    (hmem : u ∉ e.participants) :
    maxCapacity e = 1000 ∧
    ((attemptJoin e u tc reqId now).1 = JoinResult.CapacityExceeded ↔
      1000 ≤ e.participants.length) := by
  have hmax : maxCapacity e = 1000 := by
    rcases hcap with h | ⟨c, hc, h | h⟩ <;> simp [maxCapacity, *]
  refine ⟨hmax, ?_, ?_⟩
  · intro hres
    by_contra hlt
    push_neg at hlt
    have hcap2 : (e.participants.length : Int) < maxCapacity e := by
      rw [hmax]
      exact_mod_cast hlt
    exact attemptJoin_res_ne_cap e u tc reqId now hmem hcap2 hres
  · intro hge
    have hle : maxCapacity e ≤ (e.participants.length : Int) := by
      rw [hmax]
      exact_mod_cast hge
    rw [attemptJoin_cap e u tc reqId now hmem hle]

/-- Witness for C10 on a concrete event with `capacity.max = 0`. -/
theorem default_capacity_1000_witness :
    maxCapacity defaultCapEvent = 1000 ∧
    ((attemptJoin defaultCapEvent "u" none 1 1).1 = JoinResult.CapacityExceeded ↔
      1000 ≤ defaultCapEvent.participants.length) :=
  default_capacity_1000 defaultCapEvent "u" none 1 1
    (Or.inr ⟨⟨3, some 0⟩, rfl, Or.inr rfl⟩) (by decide)

def c3Event : Event :=
  ⟨"org", ["U1", "U2"], ["A", "B"], [], false, some ⟨2, some 5⟩, none⟩

/-- C3: leave fails with NotAParticipant exactly when the user is absent from
participants; when the user is a participant and the waitlist is non-empty
(on an event carrying a capacity record), leave removes that user, appends
exactly the head of the waitlist to participants, leaves the remaining
waitlist in its original order, and leaves `capacity.current` unchanged. -/
theorem leave_promotes_waitlist_head (e : Event) (u : String) :
    ((leave e u).1 = LeaveResult.NotAParticipant ↔ u ∉ e.participants) ∧
    (∀ c a ws, e.capacity = some c → e.waitlist = a :: ws → u ∈ e.participants →
      leave e u = (LeaveResult.Ok,
        { e with participants := removeFirst e.participants u ++ [a],
                 waitlist := ws, capacity := some c })) := by
  constructor
  · by_cases hmem : u ∈ e.participants
    · unfold leave
      rw [if_pos hmem]
      cases hc : e.capacity with
      | none => simp [hmem]
      | some c =>
        cases hw : e.waitlist with
        | nil => simp [hmem]
        | cons a ws => simp [hmem]
    · unfold leave
      rw [if_neg hmem]
      simp [hmem]
  · intro c a ws hc hw hmem
    unfold leave
    rw [if_pos hmem]
    simp only [hc, hw]
    have harith : c.current - 1 + 1 = c.current := by omega
    rw [harith]

/-- Witness for C3 at the spec scenario: participants [U1, U2],
waitlist [A, B], leave U1 gives participants [U2, A], waitlist [B], with
`capacity.current` unchanged. -/
theorem leave_promotes_waitlist_head_witness :
    leave c3Event "U1" =
      (LeaveResult.Ok,
        { c3Event with participants := ["U2", "A"], waitlist := ["B"] }) := by
  have h := (leave_promotes_waitlist_head c3Event "U1").2 ⟨2, some 5⟩ "A" ["B"]
    rfl rfl (by decide)
  rw [h]
  decide

/-! The capacity-bound invariant (claim C1). -/

/-- The capacity-bound invariant of the spec together with the ledger
consistency that `current` equals the participants count. -/
def capacityOk (e : Event) : Prop :=
  ∀ c, e.capacity = some c →
    0 ≤ c.current ∧ (∀ m, c.max = some m → c.current ≤ m) ∧
      c.current = (e.participants.length : Int)

theorem capacityOk_intro (e : Event) (cur m : Int) (hc : e.capacity = some ⟨cur, some m⟩)
    (h0 : 0 ≤ cur) (h1 : cur ≤ m) (hlen : cur = (e.participants.length : Int)) :
    capacityOk e := by
  intro c hcc
  rw [hc] at hcc
  injection hcc with hcc
  subst hcc
  refine ⟨h0, ?_, hlen⟩
  intro m2 hm2
  injection hm2 with hm2
  subst hm2
  exact h1

theorem removeFirst_length (l : List String) (u : String) (h : u ∈ l) :
    (removeFirst l u).length + 1 = l.length := by
  induction l with
  | nil => simp at h
  | cons x xs ih =>
    by_cases hx : x = u
    · simp [removeFirst, hx]
    · have hm : u ∈ xs := by
        rcases List.mem_cons.mp h with h1 | h1
        · exact absurd h1.symm hx
        · exact h1
      have h2 := ih hm
      simp only [removeFirst, if_neg hx, List.length_cons]
      omega

theorem attemptJoin_payment_or_branch (e : Event) (u : String) (tc : Option String)
    (reqId now : Nat) (hmem : u ∉ e.participants)
    (hcap : (e.participants.length : Int) < maxCapacity e) :
    (attemptJoin e u tc reqId now).2 = e ∨
    attemptJoin e u tc reqId now = attemptJoinBranch e u tc reqId now := by
  unfold attemptJoin
  rw [if_neg hmem, if_neg (not_le.mpr hcap)]
  split
  · split_ifs
    · exact Or.inl rfl
    · exact Or.inr rfl
  · exact Or.inr rfl

theorem attemptJoinBranch_capacityOk (e : Event) (u : String) (tc : Option String)
    (reqId now : Nat) (cur m : Int) (hc : e.capacity = some ⟨cur, some m⟩)
    (h0 : 0 ≤ cur) (h1 : cur ≤ m)
    (hlen : cur = (e.participants.length : Int))
    (hlt : (e.participants.length : Int) < m) :
    capacityOk (attemptJoinBranch e u tc reqId now).2 := by
  have hbase := capacityOk_intro e cur m hc h0 h1 hlen
  unfold attemptJoinBranch
  by_cases hra : e.requiresApproval
  · rw [if_pos hra]
    by_cases hdup : ∃ r ∈ e.joinRequests, r.user = u ∧ r.status = Status.pending
    · rw [if_pos hdup]
      exact hbase
    · rw [if_neg hdup]
      intro c hcc
      exact hbase c hcc
  · rw [if_neg hra]
    intro c hcc
    simp only [hc, Option.map_some'] at hcc
    injection hcc with hcc
    subst hcc
    have hlen2 : (e.participants ++ [u]).length = e.participants.length + 1 := by
      simp
    refine ⟨?_, ?_, ?_⟩
    · simp only []
      omega
    · intro m2 hm2
      injection hm2 with hm2
      subst hm2
      simp only [hlen2]
      push_cast
      omega
    · simp only [hlen2]

theorem attemptJoin_capacityOk (e : Event) (u : String) (tc : Option String) (reqId now : Nat)
    (cur m : Int) (hc : e.capacity = some ⟨cur, some m⟩)
    (h0 : 0 ≤ cur) (h1 : cur ≤ m) (hm : 1 ≤ m)
    (hlen : cur = (e.participants.length : Int)) :
    capacityOk (attemptJoin e u tc reqId now).2 := by
  have hbase := capacityOk_intro e cur m hc h0 h1 hlen
  by_cases hmem : u ∈ e.participants
  · rw [attemptJoin_mem e u tc reqId now hmem]
    exact hbase
  · by_cases hcap : maxCapacity e ≤ (e.participants.length : Int)
    · rw [attemptJoin_cap e u tc reqId now hmem hcap]
      exact hbase
    · push_neg at hcap
      have hmax : maxCapacity e = m := maxCapacity_eq e _ m hc rfl (by omega)
      have hlt : (e.participants.length : Int) < m := by
        rw [hmax] at hcap
        exact hcap
      rcases attemptJoin_payment_or_branch e u tc reqId now hmem hcap with h | h
      · rw [h]
        exact hbase
      · rw [h]
        exact attemptJoinBranch_capacityOk e u tc reqId now cur m hc h0 h1 hlen hlt

theorem approveRequest_cases (e : Event) (requestId : Nat) (aid : String) :
    (approveRequest e requestId aid).2 = e ∨
    ∃ r c, e.joinRequests.find? (fun q => q.rid == requestId) = some r ∧
      r.status = Status.pending ∧ e.capacity = some c ∧ ¬ capFull c ∧
      (approveRequest e requestId aid).2 =
        { e with joinRequests := setStatusFirst e.joinRequests requestId Status.approved,
                 participants := e.participants ++ [r.user],
                 capacity := some { c with current := c.current + 1 } } := by
  unfold approveRequest
  split
  · exact Or.inl rfl
  split
  · exact Or.inl rfl
  next r heq =>
    split
    · exact Or.inl rfl
    next hs =>
      split
      · exact Or.inl rfl
      next c heqc =>
        split
        · exact Or.inl rfl
        next hfull =>
          exact Or.inr ⟨r, c, heq, not_not.mp hs, heqc, hfull, rfl⟩

theorem rejectRequest_cases (e : Event) (requestId : Nat) (aid : String) :
    (rejectRequest e requestId aid).2 = e ∨
    ∃ r, e.joinRequests.find? (fun q => q.rid == requestId) = some r ∧
      r.status = Status.pending ∧
      (rejectRequest e requestId aid).2 =
        { e with joinRequests := setStatusFirst e.joinRequests requestId Status.rejected } := by
  unfold rejectRequest
  split
  · exact Or.inl rfl
  split
  · exact Or.inl rfl
  next r heq =>
    split
    · exact Or.inl rfl
    next hs =>
      exact Or.inr ⟨r, heq, not_not.mp hs, rfl⟩

theorem leave_cases (e : Event) (u : String) :
    (leave e u).2 = e ∨
    (u ∈ e.participants ∧ ∃ c, e.capacity = some c ∧
      ((e.waitlist = [] ∧ (leave e u).2 =
          { e with participants := removeFirst e.participants u,
                   capacity := some { c with current := c.current - 1 } }) ∨
       (∃ a ws, e.waitlist = a :: ws ∧ (leave e u).2 =
          { e with participants := removeFirst e.participants u ++ [a],
                   waitlist := ws,
                   capacity := some { c with current := c.current - 1 + 1 } }))) := by
  unfold leave
  by_cases hmem : u ∈ e.participants
  · rw [if_pos hmem]
    split
    · exact Or.inl rfl
    next c heqc =>
      split
      · next hw => exact Or.inr ⟨hmem, c, heqc, Or.inl ⟨hw, rfl⟩⟩
      · next a ws hw => exact Or.inr ⟨hmem, c, heqc, Or.inr ⟨a, ws, hw, rfl⟩⟩
  · rw [if_neg hmem]
    exact Or.inl rfl

theorem approveRequest_capacityOk (e : Event) (requestId : Nat) (aid : String)
    (cur m : Int) (hc : e.capacity = some ⟨cur, some m⟩)
    (h0 : 0 ≤ cur) (h1 : cur ≤ m) (hlen : cur = (e.participants.length : Int)) :
    capacityOk (approveRequest e requestId aid).2 := by
  have hbase := capacityOk_intro e cur m hc h0 h1 hlen
  rcases approveRequest_cases e requestId aid with h | ⟨r, c, hfind, hpend, hcc, hfull, h⟩
  · rw [h]
    exact hbase
  · rw [hcc] at hc
    injection hc with hc
    subst hc
    have hcur : cur < m := by
      simp only [capFull] at hfull
      omega
    rw [h]
    intro c2 hcc2
    injection hcc2 with hcc2
    subst hcc2
    have hlen2 : (e.participants ++ [r.user]).length = e.participants.length + 1 := by
      simp
    refine ⟨?_, ?_, ?_⟩
    · show (0 : Int) ≤ cur + 1
      omega
    · intro m2 hm2
      injection hm2 with hm2
      subst hm2
      show cur + 1 ≤ m
      omega
    · show cur + 1 = ((e.participants ++ [r.user]).length : Int)
      rw [hlen2]
      push_cast
      omega

theorem rejectRequest_capacityOk (e : Event) (requestId : Nat) (aid : String)
    (cur m : Int) (hc : e.capacity = some ⟨cur, some m⟩)
    (h0 : 0 ≤ cur) (h1 : cur ≤ m) (hlen : cur = (e.participants.length : Int)) :
    capacityOk (rejectRequest e requestId aid).2 := by
  have hbase := capacityOk_intro e cur m hc h0 h1 hlen
  rcases rejectRequest_cases e requestId aid with h | ⟨r, hfind, hpend, h⟩
  · rw [h]
    exact hbase
  · rw [h]
    intro c hcc
    exact hbase c hcc

theorem leave_capacityOk (e : Event) (u : String)
    (cur m : Int) (hc : e.capacity = some ⟨cur, some m⟩)
    (h0 : 0 ≤ cur) (h1 : cur ≤ m) (hlen : cur = (e.participants.length : Int)) :
    capacityOk (leave e u).2 := by
  have hbase := capacityOk_intro e cur m hc h0 h1 hlen
  rcases leave_cases e u with h | ⟨hmem, c, hcc, hrest⟩
  · rw [h]
    exact hbase
  · rw [hcc] at hc
    injection hc with hc
    subst hc
    have hpos : 0 < e.participants.length := List.length_pos_of_mem hmem
    have hrem := removeFirst_length e.participants u hmem
    rcases hrest with ⟨hw, h⟩ | ⟨a, ws, hw, h⟩
    · rw [h]
      intro c2 hcc2
      injection hcc2 with hcc2
      subst hcc2
      refine ⟨?_, ?_, ?_⟩
      · show (0 : Int) ≤ cur - 1
        omega
      · intro m2 hm2
        injection hm2 with hm2
        subst hm2
        show cur - 1 ≤ m
        omega
      · show cur - 1 = ((removeFirst e.participants u).length : Int)
        omega
    · rw [h]
      intro c2 hcc2
      injection hcc2 with hcc2
      subst hcc2
      have hlen2 : (removeFirst e.participants u ++ [a]).length =
          (removeFirst e.participants u).length + 1 := by
        simp
      refine ⟨?_, ?_, ?_⟩
      · show (0 : Int) ≤ cur - 1 + 1
        omega
      · intro m2 hm2
        injection hm2 with hm2
        subst hm2
        show cur - 1 + 1 ≤ m
        omega
      · show cur - 1 + 1 = ((removeFirst e.participants u ++ [a]).length : Int)
        rw [hlen2]
        push_cast
        omega

/-- C1 (amended: additionally `capacity.max ≥ 1`): for every event state
whose capacity record satisfies `0 ≤ current ≤ max` with `1 ≤ max` and
`current` equal to the number of participants, the committed state after each
of attemptJoin, approveRequest, rejectRequest and leave still satisfies
`0 ≤ current ≤ max` (together with the participants-count consistency). -/
theorem capacity_invariant_preserved (e : Event) (u u2 aid : String) (tc : Option String)
    (reqId now requestId : Nat) (cur m : Int)
    (hc : e.capacity = some ⟨cur, some m⟩)
    (h0 : 0 ≤ cur) (h1 : cur ≤ m) (hm : 1 ≤ m)
    (hlen : cur = (e.participants.length : Int)) :
    capacityOk (attemptJoin e u tc reqId now).2 ∧
    capacityOk (approveRequest e requestId aid).2 ∧
    capacityOk (rejectRequest e requestId aid).2 ∧
    capacityOk (leave e u2).2 :=
  ⟨attemptJoin_capacityOk e u tc reqId now cur m hc h0 h1 hm hlen,
   approveRequest_capacityOk e requestId aid cur m hc h0 h1 hlen,
   rejectRequest_capacityOk e requestId aid cur m hc h0 h1 hlen,
   leave_capacityOk e u2 cur m hc h0 h1 hlen⟩

/-- Witness for C1 on a concrete consistent event. -/
theorem capacity_invariant_preserved_witness :
    capacityOk (attemptJoin spareFreeEvent "b" none 1 1).2 ∧
    capacityOk (approveRequest spareFreeEvent 1 "org").2 ∧
    capacityOk (rejectRequest spareFreeEvent 1 "org").2 ∧
    capacityOk (leave spareFreeEvent "a").2 :=
  capacity_invariant_preserved spareFreeEvent "b" "a" "org" none 1 1 1 1 3
    rfl (by decide) (by decide) (by decide) rfl

/-- C1 counterexample: the state with `capacity = {current := 0, max := 0}`
and no participants satisfies `0 ≤ current ≤ max`, yet attemptJoin commits a
Joined transition to a state with `current = 1 > 0 = max`, because the
capacity check replaces `max = 0` by the default limit 1000. -/
theorem capacity_invariant_preserved_cex :
    zeroMaxFreeEvent.capacity = some ⟨0, some 0⟩ ∧
    zeroMaxFreeEvent.participants = [] ∧
    (attemptJoin zeroMaxFreeEvent "u" none 1 2).1 = JoinResult.Joined ∧
    (attemptJoin zeroMaxFreeEvent "u" none 1 2).2.capacity = some ⟨1, some 0⟩ ∧
    ¬ ((1 : Int) ≤ 0) := by
  decide

/-! Monotonicity of join-request status (claim C9). -/

/-- The allowed evolutions of one request slot across one operation: either
the status is unchanged, or a pending request became approved or rejected. -/
def statusStep (r r2 : JoinRequest) : Prop :=
  r2.status = r.status ∨
    (r.status = Status.pending ∧
      (r2.status = Status.approved ∨ r2.status = Status.rejected))

theorem setStatusFirst_get? :
    ∀ (l : List JoinRequest) (i : Nat) (s : Status) (k : Nat) (r r2 : JoinRequest),
      l.get? k = some r → (setStatusFirst l i s).get? k = some r2 →
      r2 = r ∨ (r2 = { r with status := s } ∧
        l.find? (fun q => q.rid == i) = some r)
  | [], _, _, _, _, _, h, _ => by simp at h
  | x :: xs, i, s, 0, r, r2, h, h2 => by
    rw [List.get?_cons_zero] at h
    injection h with h
    subst h
    by_cases hx : x.rid = i
    · simp only [setStatusFirst, if_pos hx, List.get?_cons_zero] at h2
      injection h2 with h2
      subst h2
      refine Or.inr ⟨rfl, ?_⟩
      rw [List.find?_cons_of_pos]
      simp [hx]
    · simp only [setStatusFirst, if_neg hx, List.get?_cons_zero] at h2
      injection h2 with h2
      exact Or.inl h2.symm
  | x :: xs, i, s, k + 1, r, r2, h, h2 => by
    rw [List.get?_cons_succ] at h
    by_cases hx : x.rid = i
    · simp only [setStatusFirst, if_pos hx, List.get?_cons_succ] at h2
      rw [h] at h2
      injection h2 with h2
      exact Or.inl h2.symm
    · simp only [setStatusFirst, if_neg hx, List.get?_cons_succ] at h2
      rcases setStatusFirst_get? xs i s k r r2 h h2 with h3 | ⟨h3, h4⟩
      · exact Or.inl h3
      · refine Or.inr ⟨h3, ?_⟩
        rw [List.find?_cons_of_neg]
        · exact h4
        · simp [hx]

theorem attemptJoin_joinRequests (e : Event) (u : String) (tc : Option String)
    (reqId now : Nat) :
    (attemptJoin e u tc reqId now).2.joinRequests = e.joinRequests ∨
    (attemptJoin e u tc reqId now).2.joinRequests =
      e.joinRequests ++ [⟨reqId, u, tcOrFree tc, Status.pending, now⟩] := by
  unfold attemptJoin attemptJoinBranch
  split
  · exact Or.inl rfl
  split
  · exact Or.inl rfl
  split
  · split
    · exact Or.inl rfl
    split
    · split
      · exact Or.inl rfl
      · exact Or.inr rfl
    · exact Or.inl rfl
  · split
    · split
      · exact Or.inl rfl
      · exact Or.inr rfl
    · exact Or.inl rfl

theorem leave_joinRequests (e : Event) (u : String) :
    (leave e u).2.joinRequests = e.joinRequests := by
  rcases leave_cases e u with h | ⟨hmem, c, hc, ⟨hw, h⟩ | ⟨a, ws, hw, h⟩⟩ <;> rw [h]

/-- C9: for every event state and every join request in it, addressed by its
position in `joinRequests`, each of attemptJoin, approveRequest,
rejectRequest and leave leaves the status of an approved or rejected request
unchanged; any status change is the transition of a pending request to
approved or rejected. -/
theorem request_status_monotonic (e : Event) (u u2 aid : String) (tc : Option String)
    (reqId now requestId k : Nat) (r r2 : JoinRequest)
    (hr : e.joinRequests.get? k = some r) :
    ((attemptJoin e u tc reqId now).2.joinRequests.get? k = some r2 → statusStep r r2) ∧
    ((approveRequest e requestId aid).2.joinRequests.get? k = some r2 → statusStep r r2) ∧
    ((rejectRequest e requestId aid).2.joinRequests.get? k = some r2 → statusStep r r2) ∧
    ((leave e u2).2.joinRequests.get? k = some r2 → statusStep r r2) := by
  have hk : k < e.joinRequests.length := by
    by_contra hk2
    push_neg at hk2
    rw [List.get?_len_le hk2] at hr
    exact Option.noConfusion hr
  refine ⟨?_, ?_, ?_, ?_⟩
  · intro h2
    rcases attemptJoin_joinRequests e u tc reqId now with h | h
    · rw [h, hr] at h2
      injection h2 with h2
      exact Or.inl (by rw [h2])
    · rw [h, List.get?_append hk, hr] at h2
      injection h2 with h2
      exact Or.inl (by rw [h2])
  · intro h2
    rcases approveRequest_cases e requestId aid with h | ⟨rq, c, hfind, hpend, hcc, hfull, h⟩
    · rw [h, hr] at h2
      injection h2 with h2
      exact Or.inl (by rw [h2])
    · rw [h] at h2
      rcases setStatusFirst_get? e.joinRequests requestId Status.approved k r r2 hr h2 with
        h3 | ⟨h3, h4⟩
      · exact Or.inl (by rw [h3])
      · rw [hfind] at h4
        injection h4 with h4
        refine Or.inr ⟨h4 ▸ hpend, Or.inl ?_⟩
        rw [h3]
  · intro h2
    rcases rejectRequest_cases e requestId aid with h | ⟨rq, hfind, hpend, h⟩
    · rw [h, hr] at h2
      injection h2 with h2
      exact Or.inl (by rw [h2])
    · rw [h] at h2
      rcases setStatusFirst_get? e.joinRequests requestId Status.rejected k r r2 hr h2 with
        h3 | ⟨h3, h4⟩
      · exact Or.inl (by rw [h3])
      · rw [hfind] at h4
        injection h4 with h4
        refine Or.inr ⟨h4 ▸ hpend, Or.inr ?_⟩
        rw [h3]
  · intro h2
    rw [leave_joinRequests, hr] at h2
    injection h2 with h2
    exact Or.inl (by rw [h2])

/-- Witness for C9: the already-approved request of a concrete event keeps
its status across an approveRequest call addressed at it. -/
theorem request_status_monotonic_witness :
    statusStep ⟨1, "u", "FREE", Status.approved, 0⟩ ⟨1, "u", "FREE", Status.approved, 0⟩ :=
  (request_status_monotonic processedEvent "u" "v" "org" none 9 9 1 0
    ⟨1, "u", "FREE", Status.approved, 0⟩ ⟨1, "u", "FREE", Status.approved, 0⟩ rfl).2.1
    (by decide)

end Auralink
